import Mathlib

/-!
Shallow embedding of the core of the Sales Brochure Generator
(website scraping → AI link selection → content assembly → brochure
generation with retry/streaming), translated from the Python sources in
`src/`.  Machine text is modelled as `String`/`List Char`; fallible code
returns `Except`/`Option`; the retry loop is modelled as a function of a
transport trace (attempt index → outcome) that also records the number of
calls made and the sleep durations, so that the backoff policy is
observable.
-/

namespace SalesBrochure

/-! ### Text utilities (`src/utils/text_utils.py`) -/

/-- Python's `\s` whitespace class restricted to its ASCII members
(` `, `\t`, `\n`, `\r`, `\x0b`, `\x0c`); the Unicode extras play no role
in the properties proved here. -/
def isSpace (c : Char) : Bool :=
  c = ' ' || c = '\t' || c = '\n' || c = '\r' || c = '\x0b' || c = '\x0c'

/-- `re.sub(r'\s+', ' ', text)`: every maximal run of whitespace becomes a
single space.  The flag records whether the previous character was part of
a whitespace run whose single replacement space has already been
emitted. -/
def collapse : Bool → List Char → List Char
  | _, [] => []
  | prevWs, c :: rest =>
    if isSpace c then
      if prevWs then collapse true rest
      else ' ' :: collapse true rest
    else c :: collapse false rest

/-- `str.strip()` from the left. -/
def trimLeft (l : List Char) : List Char := l.dropWhile isSpace

/-- `str.strip()` from the right. -/
def trimRight (l : List Char) : List Char := (l.reverse.dropWhile isSpace).reverse

/-- `str.strip()`. -/
def trimChars (l : List Char) : List Char := trimRight (trimLeft l)

/-- Whether a character list begins with a whitespace character. -/
def headSpace : List Char → Bool
  | [] => false
  | c :: _ => isSpace c

/-- The normal form whitespace collapsing produces: every whitespace
character is the single space `' '` and is not followed by further
whitespace. -/
def wsOk : List Char → Bool
  | [] => true
  | c :: rest => (!(isSpace c) || (c = ' ' && !(headSpace rest))) && wsOk rest

/-- `clean_text` from `text_utils.py`: empty input short-circuits to `""`;
otherwise whitespace runs are collapsed to single spaces and the result is
stripped.  The `encode('utf-8', errors='ignore').decode('utf-8')` step is
the identity on the unicode scalar values a Lean `String` holds, so it is
not represented. -/
def clean_text (s : String) : String :=
  if s.data = [] then "" else ⟨trimChars (collapse false s.data)⟩

/-- A sentence terminator as used by `truncate_content`. -/
def isTerminator (c : Char) : Bool := c = '.' || c = '!' || c = '?'

/-- Index of the last sentence terminator in a character list:
`max(rfind('.'), rfind('!'), rfind('?'))`, with `none` for Python's `-1`. -/
def lastTermIdx : List Char → Option Nat
  | [] => none
  | c :: rest =>
    match lastTermIdx rest with
    | some i => some (i + 1)
    | none => if isTerminator c then some 0 else none

/-- The ellipsis marker `"..."` appended by the hard-cut branch. -/
def ellipsisChars : List Char := ['.', '.', '.']

/-- `truncate_content` from `text_utils.py`.  The float comparison
`last_sentence_end > max_length * 0.8` is modelled exactly as
`5 * i > 4 * m`: for the integer operands the code compares, the rounded
double `max_length * 0.8` orders against `last_sentence_end` exactly as
the rational `4 * m / 5` does. -/
def truncate_content (content : List Char) (max_length : Nat) : List Char :=
  if content.length ≤ max_length then content
  else
    let truncated := content.take max_length
    match lastTermIdx truncated with
    | some i =>
      if 5 * i > 4 * max_length then content.take (i + 1)
      else truncated ++ ellipsisChars
    | none => truncated ++ ellipsisChars

/-- The branch selector of `truncate_content`: the index of the last
terminator in the first `max_length` characters when that index passes
the 80%-of-budget test, `none` otherwise. -/
def qualifyingTerm (content : List Char) (max_length : Nat) : Option Nat :=
  match lastTermIdx (content.take max_length) with
  | some i => if 5 * i > 4 * max_length then some i else none
  | none => none

/-- `len(s.split())`: the number of whitespace-delimited tokens, counted by
walking the characters with an in-word flag (Python's no-argument `split`
drops empty tokens, so only transitions into a word count). -/
def countWordsAux : Bool → List Char → Nat
  | _, [] => 0
  | inWord, c :: rest =>
    if isSpace c then countWordsAux false rest
    else (if inWord then 0 else 1) + countWordsAux true rest

/-- `len(s.split())` for a `String`. -/
def countWords (s : String) : Nat := countWordsAux false s.data

/-! ### API-key format validation
(`openai_model.py:_validate_api_key`, `claude_model.py:_validate_api_key`) -/

/-- `OpenAIModel._validate_api_key`:
`self.api_key and self.api_key.startswith('sk-')` — the key must be truthy
(non-empty) and start with `sk-`.  No length requirement beyond that. -/
def openai_validate_api_key (key : String) : Bool :=
  !(key = "") && "sk-".data.isPrefixOf key.data

/-- `ClaudeModel._validate_api_key`:
`self.api_key and self.api_key.startswith('sk-ant-') and len(self.api_key) > 20`. -/
def claude_validate_api_key (key : String) : Bool :=
  !(key = "") && "sk-ant-".data.isPrefixOf key.data && key.length > 20

/-! ### Retry with exponential backoff
(`base_ai_model.py:_retry_with_backoff`; `openai_model.py`'s
`_create_completion_with_retry` inlines the identical loop).
The transport is a trace `Nat → Except String α` mapping the attempt
index to that attempt's outcome; the trace of the run records the result,
the number of attempts actually made, and the sleep durations in order. -/

structure RetryTrace (α : Type) where
  result : Except String α
  calls : Nat
  sleeps : List Nat
  deriving Repr

/-- The body of `for attempt in range(max_retries)` starting at `attempt`
with `remaining` iterations left: a success returns immediately; a failure
on the last iteration re-raises the originating exception; any earlier
failure sleeps `2 ** attempt` and continues. -/
def retryFrom (op : Nat → Except String α) : Nat → Nat → RetryTrace α
  | _, 0 => ⟨.error "Max retries exceeded", 0, []⟩
  | attempt, r + 1 =>
    match op attempt with
    | .ok v => ⟨.ok v, 1, []⟩
    | .error e =>
      if r = 0 then ⟨.error e, 1, []⟩
      else
        let t := retryFrom op (attempt + 1) r
        ⟨t.result, t.calls + 1, 2 ^ attempt :: t.sleeps⟩

/-- `_retry_with_backoff(operation_func)` with `self.max_retries`
attempts. -/
def retryWithBackoff (op : Nat → Except String α) (maxRetries : Nat) : RetryTrace α :=
  retryFrom op 0 maxRetries

/-- A stub transport that fails twice and then succeeds (the spec's retry
scenario). -/
def failsTwice : Nat → Except String String :=
  fun i => if i < 2 then .error "boom" else .ok "done"

/-! ### `extract_links` (`base_ai_model.py:extract_links`,
`openai_model.py:extract_links`): one retried completion request, then a
JSON parse of the extracted text; `json.JSONDecodeError` is re-raised, and
so is every other exception. -/

/-- The distinct error kinds `extract_links` can surface. -/
inductive LinkErr where
  | transport (e : String)
  | parseError
  deriving Repr, DecidableEq

/-- `extract_links`, abstracted over the transport trace and the JSON
parser (`parse t = some links` iff `json.loads(t)` succeeds with a `links`
array).  The second component counts the transport calls made, so that
"the request is not re-issued after a parse failure" is observable. -/
def extract_links (op : Nat → Except String String) (maxRetries : Nat)
    (parse : String → Option (List String)) : Except LinkErr (List String) × Nat :=
  let t := retryWithBackoff op maxRetries
  match t.result with
  | .error e => (.error (.transport e), t.calls)
  | .ok text =>
    match parse text with
    | some links => (.ok links, t.calls)
    | none => (.error .parseError, t.calls)

/-! ### `test_connection` (`base_ai_model.py:test_connection`,
`openai_model.py:test_connection`): a single probe completion; the reply
is stripped and upper-cased and must contain `"OK"`; every exception —
from the retried request or from response-text extraction — is converted
to `false`. -/

/-- Boolean substring test over character lists (Python's `in`). -/
def containsSub (needle : List Char) : List Char → Bool
  | [] => needle.isEmpty
  | hay@(_ :: rest) => needle.isPrefixOf hay || containsSub needle rest

/-- `str.upper()` restricted to the ASCII mapping Lean's `Char.toUpper`
implements (sufficient for the `"OK"` probe). -/
def upperChars (l : List Char) : List Char := l.map Char.toUpper

/-- `test_connection`: `op`/`maxRetries` drive the retried probe request,
`extract` is `_extract_text_from_response` (which can itself fail
structurally).  All failures become `false`; a reply passes when `"OK"`
is a substring of its stripped, upper-cased text. -/
def test_connection (op : Nat → Except String String) (maxRetries : Nat)
    (extract : String → Except String String) : Bool :=
  match (retryWithBackoff op maxRetries).result with
  | .error _ => false
  | .ok resp =>
    match extract resp with
    | .error _ => false
    | .ok text => containsSub ['O', 'K'] (upperChars (trimChars text.data))

/-! ### Streaming chunk extraction
(`openai_model.py:stream_brochure_generation`'s inline loop and
`claude_model.py:_extract_text_from_stream_chunk` +
`base_ai_model.py:stream_brochure_generation`'s shared loop). -/

/-- The `content` field of an OpenAI stream delta (`None` when absent). -/
structure OpenAIDelta where
  content : Option String
  deriving Repr, DecidableEq

/-- One element of an OpenAI chunk's `choices` list; `delta = none` models
a missing or falsy `delta` attribute. -/
structure OpenAIChoice where
  delta : Option OpenAIDelta
  deriving Repr, DecidableEq

/-- An OpenAI stream chunk. -/
structure OpenAIChunk where
  choices : List OpenAIChoice
  deriving Repr, DecidableEq

/-- The guard chain of `OpenAIModel.stream_brochure_generation`:
`choices` non-empty, `choices[0].delta` present and truthy,
`delta.content is not None`.  Note there is no emptiness test on the
content itself. -/
def openai_extract_chunk (c : OpenAIChunk) : Option String :=
  match c.choices with
  | [] => none
  | ch :: _ =>
    match ch.delta with
    | none => none
    | some d => d.content

/-- OpenAI's inline stream loop: yield the extracted content whenever it
`is not None` (the empty string included). -/
def openai_stream_yields : List OpenAIChunk → List String
  | [] => []
  | c :: rest =>
    match openai_extract_chunk c with
    | some t => t :: openai_stream_yields rest
    | none => openai_stream_yields rest

/-- The `text` field of a Claude stream delta. -/
structure ClaudeDelta where
  text : Option String
  deriving Repr, DecidableEq

/-- A Claude stream chunk; `delta = none` models a chunk without a
`delta` attribute. -/
structure ClaudeChunk where
  delta : Option ClaudeDelta
  deriving Repr, DecidableEq

/-- `ClaudeModel._extract_text_from_stream_chunk`: returns
`chunk.delta.text` only when the chunk has a delta with truthy
(non-empty) text; otherwise `None`. -/
def claude_extract_chunk (c : ClaudeChunk) : Option String :=
  match c.delta with
  | none => none
  | some d =>
    match d.text with
    | none => none
    | some t => if t = "" then none else some t

/-- `BaseAIModel.stream_brochure_generation`'s loop (used by Claude):
`text = extract(chunk); if text: yield text` — `None` and `""` are both
falsy and are skipped. -/
def base_stream_yields (extract : χ → Option String) : List χ → List String
  | [] => []
  | c :: rest =>
    match extract c with
    | some t =>
      if t = "" then base_stream_yields extract rest
      else t :: base_stream_yields extract rest
    | none => base_stream_yields extract rest

/-! ### Orchestrator results (`generators/brochure_generator.py`). -/

/-- The fields of `GenerationResult` the verified properties touch;
`metadata` and the wall-clock `generation_time` are outside the
embedding. -/
structure GenerationResult where
  content : String
  file_path : Option String
  word_count : Nat
  deriving Repr, DecidableEq

/-- `BrochureGenerator._save_brochure`: the file handler's save either
returns a path or raises; the exception is caught and turned into
`None`. -/
def save_brochure (saveResult : Except String String) : Option String :=
  match saveResult with
  | .ok p => some p
  | .error _ => none

/-- `str(file_path) if file_path else None`: a missing or falsy (empty)
path becomes `None`. -/
def filePathOf (fp : Option String) : Option String :=
  match fp with
  | some p => if p = "" then none else some p
  | none => none

/-- The tail of `BrochureGenerator.generate_brochure` (steps 6–7): after
generation produced `brochure_content`, the brochure is saved (failures
caught) and the `GenerationResult` is assembled. -/
def generate_brochure_result (brochure_content : String)
    (saveResult : Except String String) : GenerationResult :=
  let file_path := save_brochure saveResult
  { content := brochure_content
    file_path := filePathOf file_path
    word_count := countWords brochure_content }

/-- An element of the mixed stream `BrochureGenerator.stream_brochure_generation`
yields: text fragments followed by one final `GenerationResult`. -/
inductive StreamItem where
  | text (s : String)
  | final (r : GenerationResult)
  deriving Repr, DecidableEq

/-- The accumulation loop of the orchestrator's streaming path:
`full_content += chunk; yield chunk` for each fragment, returning the
accumulated content and the yielded items. -/
def streamLoop : String → List String → String × List StreamItem
  | acc, [] => (acc, [])
  | acc, c :: rest =>
    let p := streamLoop (acc ++ c) rest
    (p.1, .text c :: p.2)

/-- `BrochureGenerator.stream_brochure_generation` after content
preparation: yield every model fragment in order, then save (failures
caught) and yield the final `GenerationResult` built from the
concatenated content. -/
def stream_brochure_generation (fragments : List String)
    (saveResult : Except String String) : List StreamItem :=
  let p := streamLoop "" fragments
  p.2 ++ [.final { content := p.1
                   file_path := filePathOf (save_brochure saveResult)
                   word_count := countWords p.1 }]

/-! ### Scraper link extraction (`scrapers/website_scraper.py:_extract_links`):
normalize each anchor's href, keep it when it was not seen before and is
relevant, remembering accepted URLs in a seen-set. -/

/-- The loop of `_extract_links`, abstracted over the anchor type `α`,
`normalize_url` (`norm`) and `_is_relevant_link` (`rel`, which also sees
the anchor for its link text).  `seen` is the `seen_links` set, grown only
when a link is appended. -/
def extractLinksLoop (norm : α → Option String) (rel : String → α → Bool) :
    List α → List String → List String
  | [], _ => []
  | a :: rest, seen =>
    match norm a with
    | none => extractLinksLoop norm rel rest seen
    | some u =>
      if u ∈ seen then extractLinksLoop norm rel rest seen
      else if rel u a then u :: extractLinksLoop norm rel rest (u :: seen)
      else extractLinksLoop norm rel rest seen

/-- `WebsiteScraper._extract_links` with an initially empty seen-set. -/
def scraper_extract_links (norm : α → Option String) (rel : String → α → Bool)
    (page : List α) : List String :=
  extractLinksLoop norm rel page []

/-- The URL an anchor contributes when it normalizes and passes the
relevance filter. -/
def acceptedUrl (norm : α → Option String) (rel : String → α → Bool) (a : α) :
    Option String :=
  match norm a with
  | none => none
  | some u => if rel u a then some u else none

/-- Keep the first occurrence of each element, dropping later
duplicates; `seen` holds the elements already emitted. -/
def dedupFirst (seen : List String) : List String → List String
  | [] => []
  | u :: rest =>
    if u ∈ seen then dedupFirst seen rest
    else u :: dedupFirst (u :: seen) rest

/-! ## Helper lemmas about the retry loop -/

theorem retryFrom_calls_le (op : Nat → Except String α) (a r : Nat) :
    (retryFrom op a r).calls ≤ r := by
  induction r generalizing a with
  | zero => simp [retryFrom]
  | succ r ih =>
    rw [retryFrom]
    cases h : op a with
    | ok v => simp
    | error e =>
      by_cases hr : r = 0
      · simp [hr]
      · simpa [hr] using Nat.succ_le_succ (ih (a + 1))

theorem retryFrom_ok (op : Nat → Except String α) (v : α) :
    ∀ (k a r : Nat), k < r →
      (∀ i, a ≤ i → i < a + k → ∃ e, op i = .error e) →
      op (a + k) = .ok v →
      retryFrom op a r = ⟨.ok v, k + 1, (List.range k).map (fun j => 2 ^ (a + j))⟩ := by
  intro k
  induction k with
  | zero =>
    intro a r hk _ hok
    obtain ⟨r, rfl⟩ : ∃ r2, r = r2 + 1 := ⟨r - 1, by omega⟩
    rw [retryFrom, show op a = .ok v by simpa using hok]
    simp
  | succ k ih =>
    intro a r hk hfail hok
    obtain ⟨r, rfl⟩ : ∃ r2, r = r2 + 1 := ⟨r - 1, by omega⟩
    obtain ⟨e, he⟩ := hfail a le_rfl (by omega)
    have hr : r ≠ 0 := by omega
    have hrec := ih (a + 1) r (by omega)
      (fun i h1 h2 => hfail i (by omega) (by omega))
      (by rw [show a + 1 + k = a + (k + 1) by omega]; exact hok)
    rw [retryFrom, he]
    simp only [hr, if_false, hrec]
    refine congrArg (RetryTrace.mk (Except.ok v) (k + 1 + 1)) ?_
    rw [List.range_succ_eq_map, List.map_cons, List.map_map]
    refine congrArg (List.cons (2 ^ (a + 0))) (List.map_congr_left ?_)
    intro j _
    simp [Function.comp]
    ring_nf

theorem retryFrom_allFail (op : Nat → Except String α) (e : Nat → String) :
    ∀ (r a : Nat), 0 < r →
      (∀ i, a ≤ i → i < a + r → op i = .error (e i)) →
      retryFrom op a r =
        ⟨.error (e (a + r - 1)), r, (List.range (r - 1)).map (fun j => 2 ^ (a + j))⟩ := by
  intro r
  induction r with
  | zero => omega
  | succ r ih =>
    intro a _ hfail
    have hea : op a = .error (e a) := hfail a le_rfl (by omega)
    by_cases hr : r = 0
    · subst hr
      rw [retryFrom, hea]
      simp
    · have hrec := ih (a + 1) (by omega)
        (fun i h1 h2 => hfail i (by omega) (by omega))
      rw [retryFrom, hea]
      simp only [hr, if_false, hrec]
      have hidx : a + 1 + r - 1 = a + (r + 1) - 1 := by omega
      refine congrArg₂ (fun x y => RetryTrace.mk (Except.error x) (r + 1) y) ?_ ?_
      · rw [hidx]
      · obtain ⟨r, rfl⟩ : ∃ r2, r = r2 + 1 := ⟨r - 1, by omega⟩
        rw [show r + 1 + 1 - 1 = r + 1 by omega, show r + 1 - 1 = r by omega,
          List.range_succ_eq_map, List.map_cons, List.map_map]
        refine congrArg (List.cons (2 ^ (a + 0))) (List.map_congr_left ?_)
        intro j _
        simp [Function.comp]
        ring_nf

/-! ## C1 — retry policy -/

/-- C1: the retry wrapper makes at most `maxRetries` attempts; when every
attempt fails it sleeps `2 ^ attempt` after each failed attempt except the
last and re-raises the last attempt's exception; when attempt `k` (counted
from 0) is the first success it returns that success after `k + 1` calls
with sleeps `2^0, …, 2^(k-1)`; in particular a transport that fails twice
then succeeds is called exactly 3 times, sleeping `2^0` and `2^1` (total 3
time units). -/
theorem retry_backoff_policy :
    (∀ (op : Nat → Except String String) (m : Nat),
      (retryWithBackoff op m).calls ≤ m) ∧
    (∀ (op : Nat → Except String String) (e : Nat → String) (m : Nat), 0 < m →
      (∀ i, i < m → op i = .error (e i)) →
      retryWithBackoff op m =
        ⟨.error (e (m - 1)), m, (List.range (m - 1)).map (fun j => 2 ^ j)⟩) ∧
    (∀ (op : Nat → Except String String) (m k : Nat) (v : String), k < m →
      (∀ i, i < k → ∃ er, op i = .error er) → op k = .ok v →
      retryWithBackoff op m =
        ⟨.ok v, k + 1, (List.range k).map (fun j => 2 ^ j)⟩) ∧
    (retryWithBackoff failsTwice 3 = ⟨.ok "done", 3, [2 ^ 0, 2 ^ 1]⟩ ∧
      2 ^ 0 + 2 ^ 1 = 3) := by
  refine ⟨fun op m => retryFrom_calls_le op 0 m, ?_, ?_, by constructor <;> rfl⟩
  · intro op e m hm hfail
    have h := retryFrom_allFail op e m 0 hm (fun i _ h2 => hfail i (by omega))
    simpa using h
  · intro op m k v hk hfail hok
    have h := retryFrom_ok op v k 0 m hk (fun i _ h2 => hfail i (by omega))
      (by simpa using hok)
    simpa using h

/-- Witness for C1: the fails-twice transport run through the retry
wrapper with the default budget of 3, via the success conjunct at
`k = 2`. -/
theorem retry_backoff_policy_witness :
    retryWithBackoff failsTwice 3 =
      ⟨.ok "done", 2 + 1, (List.range 2).map (fun j => 2 ^ j)⟩ :=
  retry_backoff_policy.2.2.1 failsTwice 3 2 "done" (by decide)
    (fun i hi => ⟨"boom", by unfold failsTwice; rw [if_pos hi]⟩) rfl

/-! ## C6 — parse failures in `extract_links` are raised, not retried -/

/-- C6: when the single retried completion request succeeds (after `k`
failed transport attempts, `k + 1 ≤ maxRetries` calls in total) but the
extracted text fails to parse as JSON, `extract_links` raises the parse
error: the outcome is `parseError` — not a silent empty result — and the
transport call count stays at the `k + 1` calls of that one request, so
the retry policy never re-issues the request on account of the parse
failure. -/
theorem extract_links_parse_error (op : Nat → Except String String)
    (m k : Nat) (t : String) (parse : String → Option (List String))
    (hk : k < m) (hfail : ∀ i, i < k → ∃ e, op i = .error e)
    (hok : op k = .ok t) (hparse : parse t = none) :
    extract_links op m parse = (.error .parseError, k + 1) ∧ k + 1 ≤ m := by
  have h := retryFrom_ok op t k 0 m hk (fun i _ h2 => hfail i (by omega))
    (by simpa using hok)
  refine ⟨?_, by omega⟩
  unfold extract_links retryWithBackoff
  rw [h]
  simp [hparse]

/-- Witness for C6: the fails-twice transport delivers text that a parser
rejecting everything fails on; the parse error surfaces after exactly the
3 transport calls of the one retried request. -/
theorem extract_links_parse_error_witness :
    extract_links failsTwice 3 (fun _ => none) = (.error .parseError, 2 + 1) ∧
      2 + 1 ≤ 3 :=
  extract_links_parse_error failsTwice 3 2 "done" (fun _ => none) (by decide)
    (fun i hi => ⟨"boom", by unfold failsTwice; rw [if_pos hi]⟩) rfl rfl

/-! ## C7 — `test_connection` converts every failure to `false` -/

theorem isPrefixOf_eq_true : ∀ (n h : List Char),
    n.isPrefixOf h = true ↔ ∃ t, n ++ t = h := by
  intro n
  induction n with
  | nil => intro h; simp [List.isPrefixOf]
  | cons a as ih =>
    intro h
    cases h with
    | nil => simp [List.isPrefixOf]
    | cons b bs =>
      simp only [List.isPrefixOf, Bool.and_eq_true, beq_iff_eq, ih bs,
        List.cons_append, List.cons.injEq]
      constructor
      · rintro ⟨rfl, t, rfl⟩
        exact ⟨t, rfl, rfl⟩
      · rintro ⟨t, rfl, rfl⟩
        exact ⟨rfl, t, rfl⟩

theorem containsSub_eq_true : ∀ (h n : List Char),
    containsSub n h = true ↔ ∃ l1 l2, l1 ++ n ++ l2 = h := by
  intro h
  induction h with
  | nil =>
    intro n
    rw [containsSub]
    constructor
    · intro hn
      exact ⟨[], [], by simp [List.isEmpty_iff.mp hn]⟩
    · rintro ⟨l1, l2, hl⟩
      rcases List.append_eq_nil.mp hl with ⟨h2, _⟩
      rcases List.append_eq_nil.mp h2 with ⟨_, h3⟩
      simp [h3, List.isEmpty_iff]
  | cons c rest ih =>
    intro n
    rw [containsSub]
    simp only [Bool.or_eq_true, isPrefixOf_eq_true, ih]
    constructor
    · rintro (⟨t, ht⟩ | ⟨l1, l2, hl⟩)
      · exact ⟨[], t, by simpa using ht⟩
      · exact ⟨c :: l1, l2, by simp [hl]⟩
    · rintro ⟨l1, l2, hl⟩
      cases l1 with
      | nil => exact Or.inl ⟨l2, by simpa using hl⟩
      | cons d l1 =>
        injection hl with h1 h2
        exact Or.inr ⟨l1, l2, h2⟩

/-- C7: `test_connection` is a total Boolean — it returns `true` exactly
when the retried probe request and the response-text extraction both
succeed and the stripped, upper-cased reply contains `"OK"` as a
substring, and it returns `false` whenever the retried request fails
(retry exhaustion included); extraction failures fall under the first
equivalence (no matching success exists), so every error becomes
`false`. -/
theorem test_connection_spec :
    ∀ (op : Nat → Except String String) (m : Nat)
      (extract : String → Except String String),
      (test_connection op m extract = true ↔
        ∃ resp text, (retryWithBackoff op m).result = .ok resp ∧
          extract resp = .ok text ∧
          ∃ l1 l2, l1 ++ ['O', 'K'] ++ l2 = upperChars (trimChars text.data)) ∧
      (∀ e, (retryWithBackoff op m).result = .error e →
        test_connection op m extract = false) := by
  intro op m extract
  constructor
  · unfold test_connection
    cases hres : (retryWithBackoff op m).result with
    | error e => simp
    | ok resp =>
      show (match extract resp with
        | Except.error _ => false
        | Except.ok text =>
          containsSub ['O', 'K'] (upperChars (trimChars text.data))) = true ↔ _
      cases hex : extract resp with
      | error e2 => simp [hex]
      | ok text =>
        show containsSub ['O', 'K'] (upperChars (trimChars text.data)) = true ↔ _
        rw [containsSub_eq_true]
        constructor
        · rintro ⟨l1, l2, hl⟩
          exact ⟨resp, text, rfl, hex, l1, l2, hl⟩
        · rintro ⟨resp2, text2, hr, hx, l1, l2, hl⟩
          obtain rfl : resp = resp2 := by injection hr
          rw [hex] at hx
          obtain rfl : text = text2 := by injection hx
          exact ⟨l1, l2, hl⟩
  · intro e he
    simp [test_connection, he]

/-- Witness for C7: a transport that is down on every attempt makes the
health check return `false` rather than raise. -/
theorem test_connection_spec_witness :
    test_connection (fun _ => .error "down") 3 (fun t => .ok t) = false :=
  (test_connection_spec (fun _ => .error "down") 3 (fun t => .ok t)).2 "down" rfl

/-! ## C2 — truncation at sentence boundaries -/

/-- C2 counterexample: with `maxLen = 10` and the last terminator of the
first 10 characters at index 8, the position satisfies the claim's
`8 ≥ 0.8 * 10` (exactly: `5 * 8 ≥ 4 * 10`), yet the code's strict `>`
test sends it to the hard-cut branch: the result is the 10-character
prefix plus the ellipsis, not the prefix through the terminator. -/
theorem truncate_threshold_counterexample :
    lastTermIdx ("aaaaaaaa.aa".data.take 10) = some 8 ∧
    5 * 8 ≥ 4 * 10 ∧
    truncate_content "aaaaaaaa.aa".data 10 ≠ "aaaaaaaa.aa".data.take (8 + 1) ∧
    truncate_content "aaaaaaaa.aa".data 10 = "aaaaaaaa.a...".data := by
  decide

theorem truncate_content_eq (s : List Char) (m : Nat) (h : m < s.length) :
    truncate_content s m =
      match qualifyingTerm s m with
      | some i => s.take (i + 1)
      | none => s.take m ++ ellipsisChars := by
  rw [truncate_content, qualifyingTerm, if_neg (by omega)]
  cases hl : lastTermIdx (s.take m) with
  | none => simp [hl]
  | some j => by_cases h5 : 5 * j > 4 * m <;> simp [hl, h5]

/-- C2 (amended: the sentence-boundary cut fires only when the terminator
position is strictly greater than `0.8 * maxLen`, not `≥`):
`truncate_content` is the identity when the content fits; when the last
terminator of the first `maxLen` characters lies strictly past 80% of the
budget it returns the prefix through that terminator; otherwise it
returns the `maxLen`-character prefix with the 3-character ellipsis
marker appended, a result of length `maxLen + 3` ending in the marker. -/
theorem truncate_content_spec (s : List Char) (m : Nat) :
    (s.length ≤ m → truncate_content s m = s) ∧
    (m < s.length → ∀ i, qualifyingTerm s m = some i →
      truncate_content s m = s.take (i + 1)) ∧
    (m < s.length → qualifyingTerm s m = none →
      truncate_content s m = s.take m ++ ellipsisChars ∧
      (truncate_content s m).length = m + ellipsisChars.length ∧
      ellipsisChars <:+ truncate_content s m) := by
  refine ⟨fun h => by rw [truncate_content, if_pos h], ?_, ?_⟩
  · intro hm i hq
    rw [truncate_content_eq s m hm, hq]
  · intro hm hq
    have he : truncate_content s m = s.take m ++ ellipsisChars := by
      rw [truncate_content_eq s m hm, hq]
    rw [he]
    refine ⟨rfl, ?_, List.suffix_append _ _⟩
    simp [ellipsisChars]
    omega

/-- Witness for C2's amended theorem: each of the three branches at a
concrete input (short content; a qualifying terminator at index 9 of a
12-character string under budget 10; no terminator at all). -/
theorem truncate_content_spec_witness :
    truncate_content "ab".data 5 = "ab".data ∧
    truncate_content "aaaaaaaaa.aa".data 10 = "aaaaaaaaa.aa".data.take (9 + 1) ∧
    (truncate_content "abcdef".data 3 = "abcdef".data.take 3 ++ ellipsisChars ∧
      (truncate_content "abcdef".data 3).length = 3 + ellipsisChars.length ∧
      ellipsisChars <:+ truncate_content "abcdef".data 3) :=
  ⟨(truncate_content_spec "ab".data 5).1 (by decide),
   (truncate_content_spec "aaaaaaaaa.aa".data 10).2.1 (by decide) 9 (by decide),
   (truncate_content_spec "abcdef".data 3).2.2 (by decide) (by decide)⟩

/-! ## C3 — API-key format validation -/

/-- C3 counterexample: the OpenAI validator accepts the bare 3-character
prefix `"sk-"`, so it enforces no minimum length beyond the prefix itself
— while the Claude validator does reject a bare prefix as too short.
The claim that both providers check a fixed prefix *and* a minimum length
therefore fails for the OpenAI implementation. -/
theorem api_key_min_length_counterexample :
    openai_validate_api_key "sk-" = true ∧
    "sk-".length = 3 ∧
    claude_validate_api_key "sk-ant-" = false := by
  decide

/-- C3 (amended: only the Claude validator enforces a minimum length):
the OpenAI validator returns `true` exactly when the key starts with the
fixed prefix `sk-` (no length requirement), and the Claude validator
exactly when the key starts with the fixed prefix `sk-ant-` and is longer
than 20 characters. -/
theorem api_key_format_spec :
    ∀ key : String,
      (openai_validate_api_key key = true ↔ ∃ t, "sk-".data ++ t = key.data) ∧
      (claude_validate_api_key key = true ↔
        ((∃ t, "sk-ant-".data ++ t = key.data) ∧ 20 < key.length)) := by
  intro key
  constructor
  · simp only [openai_validate_api_key, Bool.and_eq_true, Bool.not_eq_true',
      decide_eq_false_iff_not, isPrefixOf_eq_true]
    constructor
    · rintro ⟨_, h⟩
      exact h
    · rintro ⟨t, ht⟩
      refine ⟨fun hk => ?_, t, ht⟩
      rw [hk] at ht
      simp at ht
  · simp only [claude_validate_api_key, Bool.and_eq_true, Bool.not_eq_true',
      decide_eq_false_iff_not, decide_eq_true_eq, isPrefixOf_eq_true, gt_iff_lt]
    constructor
    · rintro ⟨⟨_, hp⟩, hlen⟩
      exact ⟨hp, hlen⟩
    · rintro ⟨⟨t, ht⟩, hlen⟩
      refine ⟨⟨fun hk => ?_, t, ht⟩, hlen⟩
      rw [hk] at ht
      simp at ht

/-! ## C4 — stream chunk extraction -/

/-- C4 counterexample: an OpenAI chunk whose delta carries the empty
string is extracted as `some ""` and the OpenAI stream loop yields it —
an empty fragment is not skipped, so the claim's "skips every chunk whose
extracted text is none or empty … for both provider implementations"
fails on the OpenAI side. -/
theorem openai_stream_empty_counterexample :
    openai_extract_chunk
        { choices := [{ delta := some { content := some "" } }] } = some "" ∧
    openai_stream_yields
        [{ choices := [{ delta := some { content := some "" } }] }] = [""] ∧
    ([""] : List String) ≠ [] :=
  ⟨rfl, rfl, by decide⟩

theorem claude_extract_chunk_ne_empty (c : ClaudeChunk) :
    claude_extract_chunk c ≠ some "" := by
  obtain ⟨delta⟩ := c
  cases delta with
  | none => simp [claude_extract_chunk]
  | some d =>
    cases hd : d.text with
    | none => simp [claude_extract_chunk, hd]
    | some t => by_cases h : t = "" <;> simp [claude_extract_chunk, hd, h]

/-- C4 (amended: only the Claude path skips empty fragments): the shared
base-class stream loop with the Claude extractor yields exactly the
extracted fragments in arrival order — all non-empty, text-free chunks
skipped without being an error — while the OpenAI inline loop yields
every present (non-`None`) delta content in arrival order, the empty
string included. -/
theorem stream_extraction_spec :
    (∀ cs : List ClaudeChunk,
      base_stream_yields claude_extract_chunk cs =
        cs.filterMap claude_extract_chunk) ∧
    (∀ (cs : List ClaudeChunk) (t : String),
      t ∈ base_stream_yields claude_extract_chunk cs → ¬(t = "")) ∧
    (∀ os : List OpenAIChunk,
      openai_stream_yields os = os.filterMap openai_extract_chunk) := by
  have hclaude : ∀ cs : List ClaudeChunk,
      base_stream_yields claude_extract_chunk cs =
        cs.filterMap claude_extract_chunk := by
    intro cs
    induction cs with
    | nil => rfl
    | cons c rest ih =>
      cases hc : claude_extract_chunk c with
      | none => simp [base_stream_yields, hc, ih]
      | some t =>
        have ht : ¬(t = "") := fun h => claude_extract_chunk_ne_empty c (h ▸ hc)
        simp [base_stream_yields, hc, ht, ih]
  refine ⟨hclaude, ?_, ?_⟩
  · intro cs t hmem
    rw [hclaude] at hmem
    rcases List.mem_filterMap.mp hmem with ⟨c, _, hc⟩
    exact fun h => claude_extract_chunk_ne_empty c (h ▸ hc)
  · intro os
    induction os with
    | nil => rfl
    | cons c rest ih =>
      cases hc : openai_extract_chunk c with
      | none => simp [openai_stream_yields, hc, ih]
      | some t => simp [openai_stream_yields, hc, ih]

/-- Witness for C4's amended theorem at concrete chunk streams. -/
theorem stream_extraction_spec_witness :
    base_stream_yields claude_extract_chunk
        [{ delta := some { text := some "Hi" } }, { delta := none }] =
      ([{ delta := some { text := some "Hi" } }, { delta := none }] :
        List ClaudeChunk).filterMap claude_extract_chunk ∧
    ¬(("Hi" : String) = "") ∧
    openai_stream_yields [{ choices := [] }] =
      ([{ choices := [] }] : List OpenAIChunk).filterMap openai_extract_chunk :=
  ⟨stream_extraction_spec.1 _,
   stream_extraction_spec.2.1 [{ delta := some { text := some "Hi" } }] "Hi"
     (by decide),
   stream_extraction_spec.2.2 _⟩

/-! ## C5 — the orchestrator's streaming path -/

theorem streamLoop_eq (l : List String) :
    ∀ acc, streamLoop acc l = (l.foldl (· ++ ·) acc, l.map StreamItem.text) := by
  induction l with
  | nil => intro acc; rfl
  | cons c rest ih => intro acc; simp [streamLoop, ih, List.foldl]

/-- C5: the orchestrator's streaming path yields the model's fragments
unchanged and in order, followed by exactly one final `GenerationResult`
whose content is the concatenation of all fragments and whose word count
is the whitespace-delimited token count of that concatenation; in
particular the stub stream `["Hel", "lo"]` is observed as `"Hel"`,
`"lo"`, then a result with content `"Hello"`. -/
theorem streaming_orchestrator_spec :
    (∀ (fragments : List String) (saveResult : Except String String),
      stream_brochure_generation fragments saveResult =
        fragments.map StreamItem.text ++
          [StreamItem.final
            { content := String.join fragments
              file_path := filePathOf (save_brochure saveResult)
              word_count := countWords (String.join fragments) }]) ∧
    stream_brochure_generation ["Hel", "lo"] (.ok "out.md") =
      [.text "Hel", .text "lo", .final ⟨"Hello", some "out.md", 1⟩] := by
  constructor
  · intro fragments saveResult
    unfold stream_brochure_generation
    rw [streamLoop_eq]
    rfl
  · decide

/-! ## C9 — a brochure-save failure is never fatal -/

/-- C9: in the non-streaming path, when the file handler's save raises
after generation succeeded, the exception is caught inside
`_save_brochure` (which returns `None`), and `generate_brochure` still
returns a `GenerationResult` carrying the full generated content, with
`file_path = None`. -/
theorem save_failure_not_fatal :
    ∀ (content e : String),
      generate_brochure_result content (.error e) =
        { content := content, file_path := none,
          word_count := countWords content } := by
  intro content e
  rfl

/-! ## C10 — scraped link lists are duplicate-free, in first-occurrence order -/

theorem extractLinksLoop_eq (norm : α → Option String) (rel : String → α → Bool) :
    ∀ (page : List α) (seen : List String),
      extractLinksLoop norm rel page seen =
        dedupFirst seen (page.filterMap (acceptedUrl norm rel)) := by
  intro page
  induction page with
  | nil => intro seen; rfl
  | cons a rest ih =>
    intro seen
    cases hn : norm a with
    | none => simp [extractLinksLoop, List.filterMap_cons, acceptedUrl, hn, ih]
    | some u =>
      by_cases hrel : rel u a
      · by_cases hseen : u ∈ seen <;>
          simp [extractLinksLoop, List.filterMap_cons, acceptedUrl, hn, hrel,
            hseen, dedupFirst, ih]
      · by_cases hseen : u ∈ seen <;>
          simp [extractLinksLoop, List.filterMap_cons, acceptedUrl, hn, hrel,
            hseen, ih]

theorem dedupFirst_nodup :
    ∀ (l seen : List String),
      (dedupFirst seen l).Nodup ∧ ∀ u ∈ dedupFirst seen l, u ∉ seen := by
  intro l
  induction l with
  | nil => intro seen; simp [dedupFirst]
  | cons u rest ih =>
    intro seen
    by_cases hs : u ∈ seen
    · simp only [dedupFirst, if_pos hs]
      exact (ih seen)
    · simp only [dedupFirst, if_neg hs, List.nodup_cons, List.mem_cons]
      refine ⟨⟨fun hu => ?_, (ih (u :: seen)).1⟩, ?_⟩
      · exact (ih (u :: seen)).2 u hu (List.mem_cons_self u seen)
      · rintro v (rfl | hv)
        · exact hs
        · intro hvs
          exact (ih (u :: seen)).2 v hv (List.mem_cons_of_mem u hvs)

/-- C10: the link list `_extract_links` stores in a page's
`WebsiteContent` has no duplicate URLs: it equals the accepted
(normalized and relevance-filtered) URL occurrences of the document with
every later duplicate dropped, so each accepted URL appears exactly once,
at the position of its first occurrence, and the list order is the
document order of those first occurrences. -/
theorem scraper_links_spec :
    ∀ (norm : α → Option String) (rel : String → α → Bool) (page : List α),
      scraper_extract_links norm rel page =
        dedupFirst [] (page.filterMap (acceptedUrl norm rel)) ∧
      (scraper_extract_links norm rel page).Nodup := by
  intro norm rel page
  have h := extractLinksLoop_eq norm rel page []
  refine ⟨h, ?_⟩
  rw [scraper_extract_links, h]
  exact (dedupFirst_nodup (page.filterMap (acceptedUrl norm rel)) []).1

/-! ## C8 — `clean_text` is idempotent -/

theorem headSpace_collapse_true : ∀ l : List Char, headSpace (collapse true l) = false := by
  intro l
  induction l with
  | nil => rfl
  | cons c rest ih =>
    cases hc : isSpace c with
    | true => simp [collapse, hc, ih]
    | false => simp [collapse, hc, headSpace]

theorem wsOk_collapse : ∀ (l : List Char) (b : Bool), wsOk (collapse b l) = true := by
  intro l
  induction l with
  | nil => intro b; rfl
  | cons c rest ih =>
    intro b
    cases hc : isSpace c with
    | true =>
      cases b with
      | true => simp [collapse, hc, ih]
      | false =>
        simp [collapse, hc, wsOk, headSpace_collapse_true, ih]
    | false => simp [collapse, hc, wsOk, ih]

theorem collapse_true_eq (l : List Char) (h : headSpace l = false) :
    collapse true l = collapse false l := by
  cases l with
  | nil => rfl
  | cons c rest =>
    have hc : isSpace c = false := h
    simp [collapse, hc]

theorem collapse_fix : ∀ l : List Char, wsOk l = true → collapse false l = l := by
  intro l
  induction l with
  | nil => intro _; rfl
  | cons c rest ih =>
    intro hw
    rw [wsOk, Bool.and_eq_true] at hw
    obtain ⟨hc, hrest⟩ := hw
    cases hsp : isSpace c with
    | false => simp [collapse, hsp, ih hrest]
    | true =>
      rw [hsp] at hc
      simp only [Bool.not_true, Bool.false_or, Bool.and_eq_true,
        decide_eq_true_eq, Bool.not_eq_true'] at hc
      obtain ⟨hce, hhs⟩ := hc
      simp [collapse, hsp, collapse_true_eq rest hhs, ih hrest, hce]

theorem wsOk_dropWhile : ∀ l : List Char,
    wsOk l = true → wsOk (List.dropWhile isSpace l) = true := by
  intro l
  induction l with
  | nil => intro h; exact h
  | cons c rest ih =>
    intro hw
    cases hsp : isSpace c with
    | true =>
      rw [List.dropWhile_cons, if_pos hsp]
      rw [wsOk, Bool.and_eq_true] at hw
      exact ih hw.2
    | false =>
      rw [List.dropWhile_cons, if_neg (by simp [hsp])]
      exact hw

theorem wsOk_append_left : ∀ (l1 l2 : List Char),
    wsOk (l1 ++ l2) = true → wsOk l1 = true := by
  intro l1
  induction l1 with
  | nil => intro l2 _; rfl
  | cons c rest ih =>
    intro l2 hw
    rw [List.cons_append, wsOk, Bool.and_eq_true] at hw
    rw [wsOk, Bool.and_eq_true]
    refine ⟨?_, ih l2 hw.2⟩
    cases hsp : isSpace c with
    | false => simp [hsp]
    | true =>
      have h1 := hw.1
      rw [hsp] at h1
      simp only [Bool.not_true, Bool.false_or, Bool.and_eq_true,
        decide_eq_true_eq, Bool.not_eq_true'] at h1
      obtain ⟨hce, hhs⟩ := h1
      have hrest : headSpace rest = false := by
        cases rest with
        | nil => rfl
        | cons d rest2 => simpa [headSpace] using hhs
      simp [hsp, hce, hrest]

theorem trimRight_prefix (l : List Char) : ∃ l2, trimRight l ++ l2 = l := by
  obtain ⟨t, ht⟩ := List.dropWhile_suffix (l := l.reverse) isSpace
  refine ⟨t.reverse, ?_⟩
  calc trimRight l ++ t.reverse
      = (t ++ List.dropWhile isSpace l.reverse).reverse := by
        rw [List.reverse_append]; rfl
    _ = l := by rw [ht, List.reverse_reverse]

theorem wsOk_trimRight (l : List Char) (h : wsOk l = true) :
    wsOk (trimRight l) = true := by
  obtain ⟨l2, hl⟩ := trimRight_prefix l
  exact wsOk_append_left (trimRight l) l2 (by rw [hl]; exact h)

theorem headSpace_dropWhile :
    ∀ l : List Char, headSpace (List.dropWhile isSpace l) = false := by
  intro l
  induction l with
  | nil => rfl
  | cons c rest ih =>
    cases hsp : isSpace c with
    | true => rw [List.dropWhile_cons, if_pos hsp]; exact ih
    | false => rw [List.dropWhile_cons, if_neg (by simp [hsp])]; exact hsp

theorem dropWhile_of_headSpace_false (l : List Char) (h : headSpace l = false) :
    List.dropWhile isSpace l = l := by
  cases l with
  | nil => rfl
  | cons c rest =>
    have hc : isSpace c = false := h
    rw [List.dropWhile_cons, if_neg (by simp [hc])]

theorem headSpace_trimRight (l : List Char) (h : headSpace l = false) :
    headSpace (trimRight l) = false := by
  obtain ⟨l2, hl⟩ := trimRight_prefix l
  cases htr : trimRight l with
  | nil => rfl
  | cons c rest =>
    rw [htr] at hl
    rw [← hl] at h
    exact h

theorem trimRight_idem (l : List Char) : trimRight (trimRight l) = trimRight l := by
  show (List.dropWhile isSpace (trimRight l).reverse).reverse = trimRight l
  rw [show (trimRight l).reverse = List.dropWhile isSpace l.reverse from
    List.reverse_reverse _]
  rw [dropWhile_of_headSpace_false _ (headSpace_dropWhile l.reverse)]
  rfl

/-- C8: `clean_text` is idempotent — cleaning already-cleaned text is the
identity, for every string. -/
theorem clean_text_idempotent : ∀ s : String, clean_text (clean_text s) = clean_text s := by
  intro s
  by_cases hnil : s.data = []
  · have h1 : clean_text s = "" := by rw [clean_text, if_pos hnil]
    rw [h1]
    rfl
  · have h1 : clean_text s = ⟨trimChars (collapse false s.data)⟩ := by
      rw [clean_text, if_neg hnil]
    rw [h1]
    by_cases ht : trimChars (collapse false s.data) = []
    · rw [clean_text, if_pos (show (String.mk (trimChars (collapse false s.data))).data = [] from ht)]
      exact String.ext ht.symm
    · rw [clean_text, if_neg (show ¬((String.mk (trimChars (collapse false s.data))).data = []) from ht)]
      refine congrArg String.mk ?_
      have hw0 : wsOk (collapse false s.data) = true := wsOk_collapse s.data false
      have hw1 : wsOk (trimLeft (collapse false s.data)) = true :=
        wsOk_dropWhile _ hw0
      have hw : wsOk (trimChars (collapse false s.data)) = true :=
        wsOk_trimRight _ hw1
      have hh0 : headSpace (trimLeft (collapse false s.data)) = false :=
        headSpace_dropWhile _
      have hh : headSpace (trimChars (collapse false s.data)) = false :=
        headSpace_trimRight _ hh0
      show trimChars (collapse false (trimChars (collapse false s.data))) =
        trimChars (collapse false s.data)
      rw [collapse_fix _ hw]
      show trimRight (trimLeft (trimChars (collapse false s.data))) =
        trimChars (collapse false s.data)
      rw [show trimLeft (trimChars (collapse false s.data)) =
          trimChars (collapse false s.data) from
        dropWhile_of_headSpace_false _ hh]
      exact trimRight_idem _

end SalesBrochure
